import Mathlib

/-!
# Verification of the `deep-research` data extraction module

This file gives a shallow embedding, in Lean 4, of the text data extractor
implemented in `scripts/data_extractor.py`, and proves (or refutes) the
testable properties stated in the module's specification.

Modelling conventions:

* Python strings are modelled as `List Char` (`PyStr`), i.e. sequences of
  Unicode code points, which matches Python 3 string indexing and slicing.
* Python floats produced here always come from decimal literals in the source
  text, so they are modelled exactly as rationals (`ℚ`).
* Python's regex character classes `\d` and `\s` are modelled as ASCII digits
  and ASCII whitespace; every character relevant to the extractor's patterns
  (digits, `%`, `.`, `,`, the CJK markers) is ASCII-classified identically.
* Fallible code paths (Python `re.error` exceptions raised while compiling a
  dynamically interpolated pattern) are modelled with `Except RegexErr`.
* The `DataExtractor` instance state (`self.extracted_data`) is a convenience
  accumulator that no extraction result depends on; the methods are modelled
  as pure functions of their inputs, and the `extracted_at` timestamp field
  (wall-clock time) is omitted from the record model.
-/

/-- Python 3 strings are sequences of code points. -/
abbrev PyStr := List Char

/-- ASCII approximation of Python's `str.isspace` / regex `\s`
(space, tab, newline, carriage return, vertical tab, form feed). -/
def isPySpace (c : Char) : Bool :=
  c = ' ' ∨ c = '\t' ∨ c = '\n' ∨ c = '\r' ∨ c = '\x0b' ∨ c = '\x0c'

/-- Python slicing `s[a:b]` for non-negative clamped bounds. -/
def pySlice (s : PyStr) (a b : ℕ) : PyStr :=
  (s.take b).drop a

/-- Python `str.strip()`: remove leading and trailing whitespace. -/
def pyStrip (s : PyStr) : PyStr :=
  ((s.dropWhile isPySpace).reverse.dropWhile isPySpace).reverse

/-- Python `str.split(d)` for a one-character separator `d`:
`"".split(d) = [""]`, and a trailing separator yields a trailing `""`. -/
def splitChar (d : Char) : PyStr → List PyStr
  | [] => [[]]
  | c :: rest =>
    if c = d then [] :: splitChar d rest
    else
      match splitChar d rest with
      | s :: ss => (c :: s) :: ss
      | [] => [[c]]

/-- `splitChar` never returns the empty list. -/
theorem splitChar_ne_nil (d : Char) (s : PyStr) : splitChar d s ≠ [] := by
  cases s with
  | nil => simp [splitChar]
  | cons c rest =>
    simp only [splitChar]
    split
    · simp
    · cases h : splitChar d rest <;> simp

/-- `pyStarts needle s` : does `s` start with `needle`? -/
def pyStarts : PyStr → PyStr → Bool
  | [], _ => true
  | _ :: _, [] => false
  | a :: as, b :: bs => a = b && pyStarts as bs

/-- Python `needle in haystack` on strings: contiguous-substring test. -/
def substrIn (needle : PyStr) : PyStr → Bool
  | [] => pyStarts needle []
  | c :: rest => pyStarts needle (c :: rest) || substrIn needle rest

/-- Python `c in s` for a single character. -/
def charIn (c : Char) (s : PyStr) : Bool :=
  s.contains c

/-- The value carried by a `Statistic`: the percentage pass stores the matched
percentage text, the large-number pass stores the parsed float. -/
inductive StatValue where
  | str (s : PyStr)
  | num (q : ℚ)
  deriving DecidableEq, Repr

/-- The `Statistic` dataclass (`extracted_at`-free fields). -/
structure Statistic where
  name : PyStr
  value : StatValue
  unit : PyStr := []
  period : PyStr := []
  source : PyStr := []
  confidence : ℚ := 0
  deriving DecidableEq, Repr

/-- One data row of an extracted table: a Python dict from header to cell,
modelled as an insertion-ordered association list with unique keys. -/
abbrev Row := List (PyStr × PyStr)

/-- Python dict assignment `d[k] = v`: overwrite in place if the key exists,
otherwise append (insertion order). -/
def dictAssign (d : Row) (k v : PyStr) : Row :=
  match d with
  | [] => [(k, v)]
  | (k0, v0) :: rest =>
    if k0 = k then (k0, v) :: rest else (k0, v0) :: dictAssign rest k v

/-- Python `d.get(k, default)` on an insertion-ordered dict. -/
def dictGet (d : Row) (k : PyStr) (dflt : PyStr) : PyStr :=
  match d with
  | [] => dflt
  | (k0, v0) :: rest => if k0 = k then v0 else dictGet rest k dflt

/-- The `ExtractedData` dataclass for tables (`metadata` is flattened into its
two populated entries `headers` and `row_count`; `extracted_at` omitted). -/
structure ExtractedData where
  content_type : PyStr
  raw_content : PyStr
  structured_data : List Row
  confidence : ℚ
  source_url : PyStr
  headers : List PyStr
  row_count : ℕ
  deriving DecidableEq, Repr

/-- Python `sep.join(parts)`. -/
def pyJoin (sep : PyStr) : List PyStr → PyStr
  | [] => []
  | [x] => x
  | x :: y :: rest => x ++ sep ++ pyJoin sep (y :: rest)

/-- The decimal constant `n / 10^k`, as a kernel-computable rational.
Decimal literals such as `0.9` elaborate through `Rat.ofScientific`, which
is `@[irreducible]` and so blocks `decide`; the source's confidence
constants and parsed floats are therefore built with `mkRat` instead, with
bridge lemmas (`dec_eq_09` etc.) relating them to the literals. -/
def dec (n k : ℕ) : ℚ := mkRat n (10 ^ k)

/-- `dec` is the decimal it claims to be. -/
theorem dec_eq_div (n k : ℕ) : dec n k = (n : ℚ) / 10 ^ k := by
  rw [dec, Rat.mkRat_eq_div]
  norm_num

/-- `dec 9 1 = 0.9`. -/
theorem dec_eq_09 : dec 9 1 = 0.9 := by rw [dec_eq_div]; norm_num

/-- `dec 7 1 = 0.7`. -/
theorem dec_eq_07 : dec 7 1 = 0.7 := by rw [dec_eq_div]; norm_num

/-- `dec 8 1 = 0.8`. -/
theorem dec_eq_08 : dec 8 1 = 0.8 := by rw [dec_eq_div]; norm_num

/-- `dec 75 2 = 0.75`. -/
theorem dec_eq_075 : dec 75 2 = 0.75 := by rw [dec_eq_div]; norm_num

/-- `dec 85 2 = 0.85`. -/
theorem dec_eq_085 : dec 85 2 = 0.85 := by rw [dec_eq_div]; norm_num

/-- The cell list of one table line:
`[h.strip() for h in line.split('|') if h.strip()]`. -/
def tableCells (line : PyStr) : List PyStr :=
  ((splitChar '|' line).map pyStrip).filter (fun h => h ≠ [])

/-- One data row of `_parse_table`: a line is kept when it has non-empty
stripped cells, at least as many as there are headers, and becomes the dict
`{header: cell}` built positionally (source lines 112–119). -/
def rowOfLine (headers : List PyStr) (line : PyStr) : Option Row :=
  let cells := tableCells line
  if cells ≠ [] ∧ headers.length ≤ cells.length then
    some ((headers.zip cells).foldl (fun d kv => dictAssign d kv.1 kv.2) [])
  else none

/-- `DataExtractor._parse_table`: headers from the first line, then one dict
per subsequent line that has at least as many (non-empty, stripped) cells as
there are headers; `None` if fewer than two lines or no row survives. -/
def parse_table (table_lines : List PyStr) (source_url : PyStr) :
    Option ExtractedData :=
  if table_lines.length < 2 then none
  else
    match table_lines with
    | [] => none
    | l0 :: rest =>
      let headers := tableCells l0
      let rows := rest.filterMap (rowOfLine headers)
      if rows = [] then none
      else some
        { content_type := "table".data
          raw_content := pyJoin ['\n'] table_lines
          structured_data := rows
          confidence := if 1 < rows.length then dec 9 1 else dec 7 1
          source_url := source_url
          headers := headers
          row_count := rows.length }

/-- The line loop of `DataExtractor.extract_tables`: lines containing `'|'`
accumulate into `current`, any other line flushes `current` through
`_parse_table`, and the tail block is flushed at the end. -/
def extractTablesGo (source_url : PyStr) :
    List PyStr → List PyStr → List ExtractedData
  | [], current =>
    if current = [] then [] else (parse_table current source_url).toList
  | line :: rest, current =>
    if charIn '|' line then extractTablesGo source_url rest (current ++ [line])
    else
      (if current = [] then [] else (parse_table current source_url).toList) ++
        extractTablesGo source_url rest []

/-- `DataExtractor.extract_tables`. -/
def extract_tables (content : PyStr) (source_url : PyStr := []) :
    List ExtractedData :=
  extractTablesGo source_url (splitChar '\n' content) []

/-- `"| " + " | ".join(cells) + " |"`, the shared shape of every rendered
table line in `generate_data_table`. -/
def mkTableRow (cells : List PyStr) : PyStr :=
  "| ".data ++ pyJoin " | ".data cells ++ " |".data

/-- `DataExtractor.generate_data_table`: empty input renders to the empty
string; otherwise header row, dash separator row, then one row per record,
with missing keys rendered as the empty string.  `columns = none` models the
Python default `columns=None` (replaced by the first record's key order). -/
def generate_data_table (data_list : List Row)
    (columns : Option (List PyStr) := none) : PyStr :=
  match data_list with
  | [] => []
  | r0 :: _ =>
    let cols := match columns with
      | some cs => cs
      | none => r0.map Prod.fst
    let header := mkTableRow cols ++ ['\n']
    let separator := mkTableRow (cols.map (fun _ => "---".data)) ++ ['\n']
    let rows := data_list.map (fun item =>
      mkTableRow (cols.map (fun col => dictGet item col [])))
    header ++ separator ++ pyJoin ['\n'] rows

/-- One regex match: `match.start()`, `match.end()`, and `match.group(1)`. -/
structure ReMatch where
  start : ℕ
  stop : ℕ
  group : PyStr
  deriving DecidableEq, Repr

/-- `re.finditer` driver: scan left to right, at each index try `matchAt`
on the remaining text; on success record the match and resume at its end
(non-overlapping matches), otherwise advance one character.  Every matcher
used here consumes at least one character, so the `max len 1` guard (which
mirrors how `finditer` always makes progress) never changes the advance.
Each step consumes at least one character of `s`, so fuel `s.length`
(supplied by `finditer` below) always suffices for the full scan. -/
def finditerGo (matchAt : PyStr → Option (PyStr × ℕ)) :
    ℕ → ℕ → PyStr → List ReMatch
  | 0, _, _ => []
  | _ + 1, _, [] => []
  | fuel + 1, pos, c :: rest =>
    match matchAt (c :: rest) with
    | none => finditerGo matchAt fuel (pos + 1) rest
    | some (g, len) =>
      ⟨pos, pos + len, g⟩ ::
        finditerGo matchAt fuel (pos + max len 1) ((c :: rest).drop (max len 1))

/-- `re.finditer(pattern, s)` over the whole of `s`. -/
def finditer (matchAt : PyStr → Option (PyStr × ℕ)) (s : PyStr) :
    List ReMatch :=
  finditerGo matchAt s.length 0 s

/-- The connective alternatives of `PERCENTAGE_PATTERN`, in source order. -/
def pctConnectives : List PyStr :=
  ["，".data, ",".data, ".".data, "的".data, "是".data, "为".data,
   "达到".data, "增长".data, "下降".data]

/-- Length of the first alternative matching at the head of `s`
(0 when none does, i.e. an optional group matching nothing). -/
def firstAltLen (alts : List PyStr) (s : PyStr) : ℕ :=
  match alts with
  | [] => 0
  | a :: rest => if pyStarts a s then a.length else firstAltLen rest s

/-- Match `PERCENTAGE_PATTERN` = `(\d+(\.\d+)?%)\s*(，|,|\.|的|是|为|达到|增长|下降)?`
at the head of `s`: group 1 and the full match length (which includes the
trailing whitespace and optional connective). -/
def matchPctAt (s : PyStr) : Option (PyStr × ℕ) :=
  let ds := s.takeWhile Char.isDigit
  if ds = [] then none
  else
    let rest1 := s.drop ds.length
    let core : Option (PyStr × PyStr) :=
      match rest1 with
      | '%' :: r => some (ds ++ ['%'], r)
      | '.' :: t =>
        let fs := t.takeWhile Char.isDigit
        if fs = [] then none
        else
          match t.drop fs.length with
          | '%' :: r => some (ds ++ '.' :: (fs ++ ['%']), r)
          | _ => none
      | _ => none
    core.map (fun gr =>
      let spaces := gr.2.takeWhile isPySpace
      let connLen := firstAltLen pctConnectives (gr.2.drop spaces.length)
      (gr.1, gr.1.length + spaces.length + connLen))

/-- All `PERCENTAGE_PATTERN` matches of `content`. -/
def PERCENTAGE_matches (content : PyStr) : List ReMatch :=
  finditer matchPctAt content

/-- The `(?:,\d{3})*` loop of `NUMBER_PATTERN`: consume maximal repetitions
of a comma followed by exactly three digits; returns (consumed, rest). -/
def commaGroups : PyStr → PyStr × PyStr
  | ',' :: a :: b :: c :: rest =>
    if a.isDigit && b.isDigit && c.isDigit then
      let gr := commaGroups rest
      (',' :: a :: b :: c :: gr.1, gr.2)
    else ([], ',' :: a :: b :: c :: rest)
  | s => ([], s)

/-- Body of the `NUMBER_PATTERN` matcher after the optional sign: greedy
`\d{1,3}`, then comma groups, optional `\.\d+`, optional `%`, then `\s*`.
Everything after `\d{1,3}` is optional or starred, so the greedy scan never
needs to backtrack. -/
def matchNumBody (sgn t : PyStr) : Option (PyStr × ℕ) :=
  let ds := (t.takeWhile Char.isDigit).take 3
  if ds = [] then none
  else
    let t1 := t.drop ds.length
    let cg := commaGroups t1
    let frac : PyStr :=
      match cg.2 with
      | '.' :: f =>
        let fs := f.takeWhile Char.isDigit
        if fs = [] then [] else '.' :: fs
      | _ => []
    let t3 := cg.2.drop frac.length
    let pct : PyStr := match t3 with | '%' :: _ => ['%'] | _ => []
    let t4 := t3.drop pct.length
    let spaces := t4.takeWhile isPySpace
    let g := sgn ++ ds ++ cg.1 ++ frac ++ pct ++ spaces
    some (g, g.length)

/-- Match `NUMBER_PATTERN` = `([-+]?\d{1,3}(?:,\d{3})*(?:\.\d+)?%?\s*)` at the
head of `s`.  Group 1 is the whole match. -/
def matchNumAt (s : PyStr) : Option (PyStr × ℕ) :=
  match s with
  | '-' :: t => matchNumBody ['-'] t
  | '+' :: t => matchNumBody ['+'] t
  | _ => matchNumBody [] s

/-- All `NUMBER_PATTERN` matches of `content`. -/
def NUMBER_matches (content : PyStr) : List ReMatch :=
  finditer matchNumAt content

/-- Value of a digit character. -/
def digitVal (c : Char) : ℕ := c.toNat - '0'.toNat

/-- Decimal value of a digit string. -/
def digitsToNat (ds : PyStr) : ℕ :=
  ds.foldl (fun n c => 10 * n + digitVal c) 0

/-- Model of Python `float()` restricted to the token shapes that can reach
it here (`[-+]?` digits, optional `.` digits — the comma-stripped, `%`-free,
whitespace-stripped residue of a `NUMBER_PATTERN` group); anything else is
`none`, the `ValueError` path. -/
def parseFloat (s : PyStr) : Option ℚ :=
  let core : PyStr → Option ℚ := fun t =>
    let ds := t.takeWhile Char.isDigit
    if ds = [] then none
    else
      match t.drop ds.length with
      | [] => some (digitsToNat ds)
      | '.' :: f =>
        let fs := f.takeWhile Char.isDigit
        if fs = [] then none
        else if f.drop fs.length ≠ [] then none
        else some (mkRat (digitsToNat ds * 10 ^ fs.length + digitsToNat fs)
          (10 ^ fs.length))
      | _ => none
  match s with
  | '-' :: t => (core t).map (fun q => -q)
  | '+' :: t => core t
  | _ => core s

/-- The character class `[^\s\d，,。]` of the name-inference pattern. -/
def nameClassChar (c : Char) : Bool :=
  ¬(isPySpace c ∨ c.isDigit ∨ c = '，' ∨ c = ',' ∨ c = '。')

/-- The alternation `(?:的|是|为|达到|anchor)` of the name-inference pattern,
tested at the head of `s` (`anchor` is `re.escape`d in the source, i.e. a
literal). -/
def nameConnAt (anchor s : PyStr) : Bool :=
  pyStarts "的".data s || pyStarts "是".data s || pyStarts "为".data s ||
    pyStarts "达到".data s || pyStarts anchor s

/-- Greedy-with-backtracking length choice for `[^\s\d，,。]{2,10}` anchored
at the head of `s`: try the longest admissible run first, going down to 2. -/
def nameTryK (anchor s : PyStr) : ℕ → Option PyStr
  | 0 => none
  | k + 1 =>
    if k + 1 < 2 then none
    else if nameConnAt anchor (s.drop (k + 1)) then some (s.take (k + 1))
    else nameTryK anchor s k

/-- Try the name-inference pattern anchored at the head of `s`. -/
def nameTryAt (anchor s : PyStr) : Option PyStr :=
  nameTryK anchor s ((s.takeWhile nameClassChar).take 10).length

/-- `re.search(r'([^\s\d，,。]{2,10})(?:的|是|为|达到|' + anchor + r')', ctx)`:
leftmost match wins; returns group 1. -/
def nameSearch (anchor : PyStr) : PyStr → Option PyStr
  | [] => nameTryAt anchor []
  | c :: rest =>
    match nameTryAt anchor (c :: rest) with
    | some g => some g
    | none => nameSearch anchor rest

/-- One percentage-pass statistic (source lines 138–156): emitted for every
percentage match, with the inferred name when the heuristic succeeds and the
empty name otherwise; fixed confidence 0.8. -/
def pctStatOf (content : PyStr) (m : ReMatch) : Statistic :=
  let context := pySlice content (m.start - 50) (min content.length (m.stop + 50))
  let nm := match nameSearch m.group context with
    | some g => pyStrip g
    | none => []
  { name := nm, value := .str m.group, confidence := dec 8 1 }

/-- The unit chain of the large-number pass (source lines 173–181), applied
to the 10-character window after the match.  Python's `in` is substring
containment. -/
def unitOf (w : PyStr) : PyStr :=
  if substrIn "亿".data w then "亿元".data
  else if substrIn "万".data w then "万元".data
  else if substrIn "百万".data w then "百万".data
  else if substrIn "千万".data w then "千万".data
  else []

/-- One large-number-pass statistic (source lines 159–194): skip `%` tokens,
parse the comma-stripped float, require value ≥ 10000, and emit only when a
name is inferred; fixed confidence 0.75.  Note that the unit window
`context[match.end():match.end()+10]` indexes the *context slice* with
positions measured in the full content, exactly as the source does. -/
def largeStatOf (content : PyStr) (m : ReMatch) : Option Statistic :=
  let num_str := pyStrip m.group
  if charIn '%' num_str then none
  else
    match parseFloat (num_str.filter (fun c => c ≠ ',')) with
    | none => none
    | some v =>
      if 10000 ≤ v then
        let context := pySlice content (m.start - 50) (min content.length (m.stop + 50))
        let unit := unitOf (pySlice context m.stop (m.stop + 10))
        match nameSearch (num_str.take 10) context with
        | some g =>
          some { name := pyStrip g, value := .num v, unit := unit,
                 confidence := dec 75 2 }
        | none => none
      else none

/-- The percentage pass of `extract_statistics`. -/
def pctPass (content : PyStr) : List Statistic :=
  (PERCENTAGE_matches content).map (pctStatOf content)

/-- The large-number pass of `extract_statistics`. -/
def largePass (content : PyStr) : List Statistic :=
  (NUMBER_matches content).filterMap (largeStatOf content)

/-- `DataExtractor.extract_statistics`: percentage pass then large-number
pass (`source_url` is accepted but never used by the source). -/
def extract_statistics (content : PyStr) (_source_url : PyStr := []) :
    List Statistic :=
  pctPass content ++ largePass content

/-- Equality of `Except` results is decidable componentwise. -/
instance {ε α : Type} [DecidableEq ε] [DecidableEq α] :
    DecidableEq (Except ε α) := fun a b =>
  match a, b with
  | .error e, .error f =>
    if h : e = f then isTrue (by rw [h]) else isFalse (by simp [h])
  | .ok x, .ok y =>
    if h : x = y then isTrue (by rw [h]) else isFalse (by simp [h])
  | .error _, .ok _ => isFalse (by simp)
  | .ok _, .error _ => isFalse (by simp)

/-- Error outcomes of Python's `re` compiling a dynamically built pattern. -/
inductive RegexErr where
  | badPattern (metric : PyStr)
  | badCharRange (token : PyStr)
  deriving DecidableEq, Repr

/-- The characters `re.escape` would have to escape.  `extract_key_metrics`
interpolates metric names into its patterns *without* escaping, so a metric
containing any of these changes or breaks the compiled pattern; the model
covers literal metrics and maps the rest to an error outcome (Python raises
`re.error` for the malformed ones, e.g. `"("` or `"*"`). -/
def reMetachars : List Char :=
  ['.', '^', '$', '*', '+', '?', '{', '}', '[', ']', '\\', '|', '(', ')']

/-- Match the value token `(\d+(?:\.\d+)?%?)` at the head of `s` (greedy;
nothing after it in the forward pattern, so no backtracking arises). -/
def numTokAt (s : PyStr) : Option PyStr :=
  let ds := s.takeWhile Char.isDigit
  if ds = [] then none
  else
    let t1 := s.drop ds.length
    let frac : PyStr :=
      match t1 with
      | '.' :: f =>
        let fs := f.takeWhile Char.isDigit
        if fs = [] then [] else '.' :: fs
      | _ => []
    let t2 := t1.drop frac.length
    let pct : PyStr := match t2 with | '%' :: _ => ['%'] | _ => []
    some (ds ++ frac ++ pct)

/-- The lazy bounded gap `[^\n。]{0,g_max}?` directly followed by a value
token: prefer the token at the current point, else extend the gap by one
admissible character. -/
def lazyGapNum (gmax g : ℕ) (s : PyStr) : Option PyStr :=
  match numTokAt s with
  | some tok => some tok
  | none =>
    if g < gmax then
      match s with
      | c :: rest =>
        if c = '\n' ∨ c = '。' then none else lazyGapNum gmax (g + 1) rest
      | [] => none
    else none

/-- `re.search(rf'{metric}[^\n。]{{0,50}}?(\d+(?:\.\d+)?%?)', content)` for a
literal metric: leftmost start position wins; returns (start, group 1). -/
def searchFwdGo (metric : PyStr) (pos : ℕ) : PyStr → Option (ℕ × PyStr)
  | [] =>
    if pyStarts metric [] then (lazyGapNum 50 0 []).map (fun tok => (pos, tok))
    else none
  | c :: rest =>
    match
      (if pyStarts metric (c :: rest) then
        lazyGapNum 50 0 ((c :: rest).drop metric.length)
      else none) with
    | some tok => some (pos, tok)
    | none => searchFwdGo metric (pos + 1) rest

/-- All ways `(\d+(?:\.\d+)?%?)` can match at the head of `s`, as
(token, rest) pairs in regex backtracking order: digit count descending,
then fraction present (its digit count descending) before absent, then `%`
consumed before not. -/
def numTokCandidates (s : PyStr) : List (PyStr × PyStr) :=
  let ds := s.takeWhile Char.isDigit
  ((List.range ds.length).map (fun i => ds.length - i)).flatMap (fun k =>
    let dk := ds.take k
    let rest := s.drop k
    let fracCands : List (PyStr × PyStr) :=
      (match rest with
       | '.' :: f =>
         let fs := f.takeWhile Char.isDigit
         ((List.range fs.length).map (fun j => fs.length - j)).map (fun mm =>
           (dk ++ '.' :: fs.take mm, f.drop mm))
       | _ => []) ++ [(dk, rest)]
    fracCands.flatMap (fun tr =>
      match tr.2 with
      | '%' :: r => [(tr.1 ++ ['%'], r), (tr.1, tr.2)]
      | _ => [(tr.1, tr.2)]))

/-- The lazy bounded gap `[^\n。]{0,g_max}?` directly followed by the literal
`metric`. -/
def lazyGapToLit (metric : PyStr) (gmax g : ℕ) (s : PyStr) : Bool :=
  if pyStarts metric s then true
  else if g < gmax then
    match s with
    | c :: rest =>
      if c = '\n' ∨ c = '。' then false else lazyGapToLit metric gmax (g + 1) rest
    | [] => false
  else false

/-- `re.search(rf'(\d+(?:\.\d+)?%?)[^\n。]{{0,30}}?{metric}', content)` for a
literal metric: leftmost start, then backtracking order over the token. -/
def searchRevGo (metric : PyStr) (pos : ℕ) : PyStr → Option (ℕ × PyStr)
  | [] => none
  | c :: rest =>
    match (numTokCandidates (c :: rest)).find?
        (fun tr => lazyGapToLit metric 30 0 tr.2) with
    | some tr => some (pos, tr.1)
    | none => searchRevGo metric (pos + 1) rest

/-- One result dict of `extract_key_metrics`. -/
structure MetricHit where
  metric : PyStr
  value : PyStr
  position : ℕ
  confidence : ℚ
  deriving DecidableEq, Repr

/-- `DataExtractor.extract_key_metrics`: per metric, a forward search
(confidence 0.85) and an independent reverse search (confidence 0.8), each
contributing a result when it matches.  A metric containing a regex
metacharacter is interpolated unescaped into the pattern in the source; the
model returns the error outcome for those (Python raises `re.error` when the
resulting pattern is malformed, and silently searches a different pattern
otherwise). -/
def extract_key_metrics (content : PyStr) (metric_names : List PyStr)
    (_source_url : PyStr := []) : Except RegexErr (List MetricHit) :=
  match metric_names with
  | [] => .ok []
  | m :: rest =>
    if m.all (fun c => c ∉ reMetachars) then do
      let tail ← extract_key_metrics content rest
      let fwd := (searchFwdGo m 0 content).map
        (fun pt => MetricHit.mk m pt.2 pt.1 (dec 85 2))
      let rev := (searchRevGo m 0 content).map
        (fun pt => MetricHit.mk m pt.2 pt.1 (dec 8 1))
      return fwd.toList ++ rev.toList ++ tail
    else .error (.badPattern m)

/-- Match `(\d{4}年\d{1,2}月)` at the head of `s` (two month digits tried
before one). -/
def matchDate1At (s : PyStr) : Option PyStr :=
  match s with
  | a :: b :: c :: d :: '年' :: t =>
    if a.isDigit && b.isDigit && c.isDigit && d.isDigit then
      match t with
      | e :: f :: g :: _ =>
        if e.isDigit && f.isDigit && g = '月' then
          some [a, b, c, d, '年', e, f, '月']
        else if e.isDigit && f = '月' then some [a, b, c, d, '年', e, '月']
        else none
      | [e, f] =>
        if e.isDigit && f = '月' then some [a, b, c, d, '年', e, '月'] else none
      | _ => none
    else none
  | _ => none

/-- Match `(\d{4}年)` at the head of `s`. -/
def matchDate2At (s : PyStr) : Option PyStr :=
  match s with
  | a :: b :: c :: d :: '年' :: _ =>
    if a.isDigit && b.isDigit && c.isDigit && d.isDigit then
      some [a, b, c, d, '年']
    else none
  | _ => none

/-- A date separator of the third timeline pattern. -/
def sepChar (c : Char) : Bool := c = '-' ∨ c = '/'

/-- The final `\d{1,2}` of the third pattern (greedy). -/
def d12End : PyStr → Option PyStr
  | a :: b :: _ =>
    if a.isDigit && b.isDigit then some [a, b]
    else if a.isDigit then some [a] else none
  | [a] => if a.isDigit then some [a] else none
  | [] => none

/-- Match the third timeline pattern — four digits, a `-` or `/` separator,
one or two digits, a separator, one or two digits — at the head of `s`
(the middle digit group backtracks from two digits to one). -/
def matchDate3At (s : PyStr) : Option PyStr :=
  match s with
  | a :: b :: c :: d :: s1 :: t =>
    if a.isDigit && b.isDigit && c.isDigit && d.isDigit && sepChar s1 then
      (match t with
       | e :: f :: s2 :: u =>
         if e.isDigit && f.isDigit && sepChar s2 then
           (d12End u).map (fun last => [a, b, c, d, s1, e, f, s2] ++ last)
         else none
       | _ => none) <|>
      (match t with
       | e :: s2 :: u =>
         if e.isDigit && sepChar s2 then
           (d12End u).map (fun last => [a, b, c, d, s1, e, s2] ++ last)
         else none
       | _ => none)
    else none
  | _ => none

/-- Match `(Q[1-4]\s*\d{4})` at the head of `s`. -/
def matchDate4At (s : PyStr) : Option PyStr :=
  match s with
  | 'Q' :: q :: t =>
    if q = '1' ∨ q = '2' ∨ q = '3' ∨ q = '4' then
      let sp := t.takeWhile isPySpace
      match t.drop sp.length with
      | a :: b :: c :: d :: _ =>
        if a.isDigit && b.isDigit && c.isDigit && d.isDigit then
          some ('Q' :: q :: (sp ++ [a, b, c, d]))
        else none
      | _ => none
    else none
  | _ => none

/-- The four timeline date patterns, in source order, as finditer matchers. -/
def datePatterns : List (PyStr → Option (PyStr × ℕ)) :=
  [fun s => (matchDate1At s).map (fun g => (g, g.length)),
   fun s => (matchDate2At s).map (fun g => (g, g.length)),
   fun s => (matchDate3At s).map (fun g => (g, g.length)),
   fun s => (matchDate4At s).map (fun g => (g, g.length))]

/-- All timeline date matches, pattern-major then position-minor, exactly the
order the source iterates them in. -/
def timelineMatches (content : PyStr) : List ReMatch :=
  datePatterns.flatMap (fun p => finditer p content)

/-- Parse the contents of a regex character class built as `[{date}]`,
returning its ranges, or `none` when the class is invalid (a reversed range
such as the `4-0` arising from `[2024-03-15]`, on which Python's `re`
raises `bad character range`).  Date tokens never contain `]`, `^` or `\`,
so the simple first-char/range/literal reading below is exact for them. -/
def parseClass : PyStr → Option (List (Char × Char))
  | [] => some []
  | a :: '-' :: b :: rest =>
    if a ≤ b then (parseClass rest).map (fun rs => (a, b) :: rs) else none
  | a :: rest => (parseClass rest).map (fun rs => (a, a) :: rs)

/-- Membership in a parsed character class. -/
def classMember (rs : List (Char × Char)) (c : Char) : Bool :=
  rs.any (fun r => r.1 ≤ c ∧ c ≤ r.2)

/-- `re.search(rf'[{date}][^\n。]{{0,60}}', context)`: first position whose
character is in the class, then a greedy run of up to 60 further characters
that are neither newline nor `。`. -/
def descSearch (rs : List (Char × Char)) : PyStr → Option PyStr
  | [] => none
  | c :: rest =>
    if classMember rs c then
      some (c :: (rest.takeWhile (fun x => ¬(x = '\n' ∨ x = '。'))).take 60)
    else descSearch rs rest

/-- One timeline event dict. -/
structure TimelineEvent where
  date : PyStr
  description : PyStr
  position : ℕ
  deriving DecidableEq, Repr

/-- Build the event for one date match (source lines 242–254): context window
30 before / 70 after, then the description search; `none` when the
description pattern finds nothing, `error` when the interpolated character
class is invalid. -/
def mkEvent (content : PyStr) (m : ReMatch) :
    Except RegexErr (Option TimelineEvent) :=
  let context := pySlice content (m.start - 30) (min content.length (m.stop + 70))
  match parseClass m.group with
  | none => .error (.badCharRange m.group)
  | some rs =>
    .ok ((descSearch rs context).map
      (fun d => ⟨m.group, pyStrip d, m.start⟩))

/-- Python's stable `list.sort(key=lambda x: x["position"])`. -/
def eventsSort (l : List TimelineEvent) : List TimelineEvent :=
  l.insertionSort (fun a b => a.position ≤ b.position)

/-- The dedup loop of `extract_timeline`: first occurrence of each exact
date token wins. -/
def dedupByDate (seen : List PyStr) : List TimelineEvent → List TimelineEvent
  | [] => []
  | e :: rest =>
    if e.date ∈ seen then dedupByDate seen rest
    else e :: dedupByDate (e.date :: seen) rest

/-- `DataExtractor.extract_timeline`: collect events per pattern, sort stably
by position, deduplicate by date token. -/
def extract_timeline (content : PyStr) (_source_url : PyStr := []) :
    Except RegexErr (List TimelineEvent) := do
  let opts ← (timelineMatches content).mapM (mkEvent content)
  return dedupByDate [] (eventsSort (opts.filterMap id))

/-! ## Helper lemmas -/

/-- A list all of whose elements fail `p` is unchanged by `dropWhile p`. -/
theorem dropWhile_eq_self_of (p : Char → Bool) (s : PyStr)
    (h : ∀ c ∈ s, p c = false) : s.dropWhile p = s := by
  cases s with
  | nil => rfl
  | cons x xs =>
    rw [List.dropWhile_cons_of_neg]
    simp [h x (List.mem_cons_self x xs)]

/-- `pyStrip` is the identity on whitespace-free strings. -/
theorem pyStrip_eq_self (s : PyStr) (h : ∀ c ∈ s, isPySpace c = false) :
    pyStrip s = s := by
  unfold pyStrip
  rw [dropWhile_eq_self_of _ s h, dropWhile_eq_self_of, List.reverse_reverse]
  intro c hc
  exact h c (List.mem_reverse.mp hc)

/-- Characters of a prefix no longer than the `takeWhile p` run satisfy `p`. -/
theorem mem_take_takeWhile (p : Char → Bool) :
    ∀ (s : PyStr) (n : ℕ), n ≤ (s.takeWhile p).length →
      ∀ c ∈ s.take n, p c = true := by
  intro s
  induction s with
  | nil => simp
  | cons x xs ih =>
    intro n hn c hc
    by_cases hx : p x = true
    · rw [List.takeWhile_cons_of_pos hx] at hn
      cases n with
      | zero => simp at hc
      | succ n =>
        rcases List.mem_cons.mp (by simpa using hc) with h | h
        · exact h ▸ hx
        · exact ih n (by simpa using hn) c h
    · rw [List.takeWhile_cons_of_neg hx] at hn
      have hn0 : n = 0 := by simpa using hn
      subst hn0
      simp at hc

/-- If a two-character substring occurs, so does its second character. -/
theorem substrIn_tail_char (a b : Char) :
    ∀ w, substrIn [a, b] w = true → substrIn [b] w = true := by
  intro w
  induction w with
  | nil => simp [substrIn, pyStarts]
  | cons c rest ih =>
    intro h
    rcases Bool.or_eq_true_iff.mp (by simpa [substrIn] using h) with h1 | h2
    · have hb : pyStarts [b] rest = true := by
        simp only [pyStarts, Bool.and_eq_true] at h1
        exact h1.2
      cases rest with
      | nil => simp [pyStarts] at hb
      | cons r rs => simp [substrIn, hb]
    · simp [substrIn, ih h2]

/-- The unit chain only ever produces `""`, `"亿元"` or `"万元"`: its `"百万"`
and `"千万"` branches require a window that contains those substrings but not
the character `"万"`, which is impossible. -/
theorem unitOf_mem (w : PyStr) :
    unitOf w = [] ∨ unitOf w = "亿元".data ∨ unitOf w = "万元".data := by
  unfold unitOf
  split_ifs with h1 h2 h3 h4
  · exact Or.inr (Or.inl rfl)
  · exact Or.inr (Or.inr rfl)
  · exact absurd (substrIn_tail_char '百' '万' w h3) (by simpa using h2)
  · exact absurd (substrIn_tail_char '千' '万' w h4) (by simpa using h2)
  · exact Or.inl rfl

/-- Shape of any statistic produced by `largeStatOf`: parsed value at least
10000, confidence 0.75, unit from the unit chain, name a stripped inferred
group. -/
theorem largeStatOf_shape (content : PyStr) (m : ReMatch) (s : Statistic)
    (h : largeStatOf content m = some s) :
    ∃ v g, s.value = .num v ∧ (10000 : ℚ) ≤ v ∧ s.confidence = dec 75 2 ∧
      s.unit = unitOf (pySlice (pySlice content (m.start - 50)
        (min content.length (m.stop + 50))) m.stop (m.stop + 10)) ∧
      nameSearch ((pyStrip m.group).take 10)
        (pySlice content (m.start - 50) (min content.length (m.stop + 50)))
        = some g ∧
      s.name = pyStrip g := by
  simp only [largeStatOf] at h
  split_ifs at h with hpc
  rcases hp : parseFloat ((pyStrip m.group).filter (fun c => c ≠ ',')) with - | v
  · rw [hp] at h; simp at h
  · rw [hp] at h
    dsimp only at h
    split_ifs at h with hv
    rcases hn : nameSearch ((pyStrip m.group).take 10)
        (pySlice content (m.start - 50) (min content.length (m.stop + 50)))
      with - | g
    · rw [hn] at h; simp at h
    · rw [hn] at h
      simp only [Option.some.injEq] at h
      subst h
      exact ⟨v, g, rfl, hv, rfl, rfl, rfl, rfl⟩

/-- Any group produced by the bounded greedy scan `nameTryK` has between 2
and `k` characters, all from the name character class (provided `k` is within
the class run, as `nameTryAt` guarantees). -/
theorem nameTryK_some (anchor s : PyStr) :
    ∀ k g, k ≤ (s.takeWhile nameClassChar).length →
      nameTryK anchor s k = some g →
      2 ≤ g.length ∧ ∀ c ∈ g, nameClassChar c = true := by
  intro k
  induction k with
  | zero => intro g _ h; simp [nameTryK] at h
  | succ k ih =>
    intro g hk h
    rw [nameTryK] at h
    split_ifs at h with h2 h3
    · have hks : k + 1 ≤ s.length :=
        le_trans hk (List.Sublist.length_le (List.takeWhile_sublist _))
      have hg : g = s.take (k + 1) := by
        simpa using h.symm
      have hlen : g.length = k + 1 := by
        rw [hg, List.length_take]
        omega
      constructor
      · omega
      · intro c hc
        exact mem_take_takeWhile nameClassChar s (k + 1) hk c (hg ▸ hc)
    · exact ih g (le_trans (Nat.le_succ k) hk) h

/-- Any group returned by the name-inference search has at least two
characters, all from the name character class (hence non-whitespace). -/
theorem nameSearch_some (anchor : PyStr) :
    ∀ ctx g, nameSearch anchor ctx = some g →
      2 ≤ g.length ∧ ∀ c ∈ g, nameClassChar c = true := by
  intro ctx
  induction ctx with
  | nil =>
    intro g h
    simp [nameSearch, nameTryAt, nameTryK] at h
  | cons c rest ih =>
    intro g h
    rw [nameSearch] at h
    rcases ht : nameTryAt anchor (c :: rest) with - | g0
    · rw [ht] at h
      exact ih g h
    · rw [ht] at h
      simp only [Option.some.injEq] at h
      subst h
      rw [nameTryAt] at ht
      refine nameTryK_some anchor (c :: rest) _ g0 ?_ ht
      simp

/-- Name-class characters are not whitespace. -/
theorem nameClassChar_not_space (c : Char) (h : nameClassChar c = true) :
    isPySpace c = false := by
  by_contra hs
  simp only [Bool.not_eq_false] at hs
  simp [nameClassChar, hs] at h

/-! ## Claim theorems -/

/-- C1: the specification claims no extraction operation ever raises a
user-visible fatal error, with the worst case an empty collection.  The code
violates this: `extract_timeline` interpolates a matched `YYYY-MM-DD` date
token into a regex character class, where `[2024-03-15]` contains the
reversed range `4-0` and `re.compile` raises `re.error`; likewise
`extract_key_metrics` interpolates metric names unescaped, so a metric such
as `"("` produces an unbalanced pattern and `re.error`.  This theorem
evaluates the embedded code at both failing inputs, exhibiting the error
outcomes. -/
theorem C1_regex_error_paths :
    extract_timeline "会议定于2024-03-15召开".data =
      .error (.badCharRange "2024-03-15".data) ∧
    extract_key_metrics "xx".data ["(".data] =
      .error (.badPattern "(".data) :=
  ⟨by decide, by decide⟩

/-- C2 counterexample: on the spec's own fixture `"总销量突破 700万辆"`,
`extract_statistics` produces no statistic at all — in particular none with
numeric value 700.0 and unit `"万元"` — because 700 is below the 10000
threshold of the large-number pass. -/
theorem C2_counterexample :
    ¬ ∃ s ∈ extract_statistics "总销量突破 700万辆".data,
        s.value = .num 700 ∧ s.unit = "万元".data := by
  decide

/-- C2 amended: on the fixture `"总销量突破 700万辆"` the number pattern does
match the token `700`, which parses to 700.0, but 700.0 < 10000, so the
large-number pass discards it before any unit or name processing and
`extract_statistics` returns the empty collection. -/
theorem C2_amended_discard_below_threshold :
    extract_statistics "总销量突破 700万辆".data = [] ∧
    NUMBER_matches "总销量突破 700万辆".data = [⟨6, 9, "700".data⟩] ∧
    parseFloat "700".data = some 700 ∧ ¬ ((10000 : ℚ) ≤ 700) :=
  ⟨by decide, by decide, by decide, by decide⟩

/-- C3: every statistic produced by the large-number pass of
`extract_statistics` carries a numeric value of at least 10000. -/
theorem C3_large_pass_threshold (content : PyStr) (s : Statistic)
    (hs : s ∈ largePass content) :
    ∃ v, s.value = .num v ∧ (10000 : ℚ) ≤ v := by
  obtain ⟨m, -, hm⟩ := List.mem_filterMap.mp hs
  obtain ⟨v, g, h1, h2, -, -, -, -⟩ := largeStatOf_shape content m s hm
  exact ⟨v, h1, h2⟩

/-- Witness for C3 at the concrete input `"营收总额达到 120,000元"`. -/
theorem C3_large_pass_threshold_witness :
    ∃ v, (⟨"营收总额".data, .num 120000, [], [], [], dec 75 2⟩ : Statistic).value
        = .num v ∧ (10000 : ℚ) ≤ v :=
  C3_large_pass_threshold "营收总额达到 120,000元".data
    ⟨"营收总额".data, .num 120000, [], [], [], dec 75 2⟩ (by decide)

/-- C10: the unit of every large-number statistic is `""`, `"亿元"` or
`"万元"`; the `"百万"` and `"千万"` branches of the source's unit chain are
unreachable because a window containing `"百万"` or `"千万"` also contains
`"万"`, which the chain checks earlier. -/
theorem C10_unit_chain_range (content : PyStr) (s : Statistic)
    (hs : s ∈ largePass content) :
    s.unit = [] ∨ s.unit = "亿元".data ∨ s.unit = "万元".data := by
  obtain ⟨m, -, hm⟩ := List.mem_filterMap.mp hs
  obtain ⟨v, g, -, -, -, hu, -, -⟩ := largeStatOf_shape content m s hm
  rw [hu]
  exact unitOf_mem _

/-- Witness for C10 at the concrete input `"总投资达到 50,000万元"`. -/
theorem C10_unit_chain_range_witness :
    (⟨"总投资".data, .num 50000, "万元".data, [], [], dec 75 2⟩ : Statistic).unit
        = []
      ∨ (⟨"总投资".data, .num 50000, "万元".data, [], [], dec 75 2⟩ : Statistic).unit
        = "亿元".data
      ∨ (⟨"总投资".data, .num 50000, "万元".data, [], [], dec 75 2⟩ : Statistic).unit
        = "万元".data :=
  C10_unit_chain_range "总投资达到 50,000万元".data
    ⟨"总投资".data, .num 50000, "万元".data, [], [], dec 75 2⟩ (by decide)

/-- C6: the percentage pass emits exactly one statistic per percentage match
(confidence 0.8, regardless of whether a name was inferred), while the
large-number pass emits a statistic only when the name heuristic succeeds —
every large-number statistic has confidence 0.75 and a name of at least two
characters, so nameless large-number matches produce no record. -/
theorem C6_emission_asymmetry (content : PyStr) :
    (pctPass content).length = (PERCENTAGE_matches content).length ∧
    (∀ s ∈ pctPass content, s.confidence = 0.8) ∧
    (∀ s ∈ largePass content, s.confidence = 0.75 ∧ 2 ≤ s.name.length) := by
  refine ⟨List.length_map _ _, ?_, ?_⟩
  · intro s hs
    obtain ⟨m, -, rfl⟩ := List.mem_map.mp hs
    exact dec_eq_08
  · intro s hs
    obtain ⟨m, -, hm⟩ := List.mem_filterMap.mp hs
    obtain ⟨v, g, -, -, hc, -, hn, hname⟩ := largeStatOf_shape content m s hm
    obtain ⟨hg2, hgclass⟩ := nameSearch_some _ _ _ hn
    have hstrip : pyStrip g = g :=
      pyStrip_eq_self g (fun c hcg => nameClassChar_not_space c (hgclass c hcg))
    exact ⟨by rw [hc]; exact dec_eq_075, by rw [hname, hstrip]; exact hg2⟩

/-- Witness for C6 at the concrete input `"渗透率达到 35.2%"`. -/
theorem C6_emission_asymmetry_witness :
    (pctPass "渗透率达到 35.2%".data).length
        = (PERCENTAGE_matches "渗透率达到 35.2%".data).length ∧
    (∀ s ∈ pctPass "渗透率达到 35.2%".data, s.confidence = 0.8) ∧
    (∀ s ∈ largePass "渗透率达到 35.2%".data,
      s.confidence = 0.75 ∧ 2 ≤ s.name.length) :=
  C6_emission_asymmetry "渗透率达到 35.2%".data

/-- C4 counterexample: on input `"2024年3月政策启动"` both the token
`"2024年3月"` (pattern 1) and the token `"2024年"` (pattern 2) survive into
the final output — they are distinct date strings, so the dedup-by-token
loop keeps both — contradicting the claim that only the first-encountered
date token appears. -/
theorem C4_counterexample :
    extract_timeline "2024年3月政策启动".data =
      .ok [⟨"2024年3月".data, "2024年3月政策启动".data, 0⟩,
           ⟨"2024年".data, "2024年3月政策启动".data, 0⟩] := by
  decide

/-- The dedup loop returns a sublist of its input. -/
theorem dedupByDate_sublist (seen : List PyStr) :
    ∀ l, List.Sublist (dedupByDate seen l) l := by
  intro l
  induction l generalizing seen with
  | nil => simp [dedupByDate]
  | cons e rest ih =>
    rw [dedupByDate]
    split_ifs
    · exact (ih seen).cons e
    · exact (ih (e.date :: seen)).cons₂ e

/-- The dedup loop emits each date token at most once, and never one from
`seen`. -/
theorem dedupByDate_nodup (l : List TimelineEvent) :
    ∀ seen, ((dedupByDate seen l).map (fun e => e.date)).Nodup ∧
      ∀ e ∈ dedupByDate seen l, e.date ∉ seen := by
  induction l with
  | nil => intro seen; simp [dedupByDate]
  | cons e rest ih =>
    intro seen
    rw [dedupByDate]
    split_ifs with hseen
    · exact ⟨(ih seen).1, (ih seen).2⟩
    · obtain ⟨ih1, ih2⟩ := ih (e.date :: seen)
      refine ⟨?_, ?_⟩
      · simp only [List.map_cons, List.nodup_cons]
        exact ⟨fun hmem => by
          obtain ⟨e', he', hd⟩ := List.mem_map.mp hmem
          exact (ih2 e' he') (hd ▸ List.mem_cons_self _ _), ih1⟩
      · intro e' he'
        rcases List.mem_cons.mp he' with rfl | h
        · exact hseen
        · exact fun hc => (ih2 e' h) (List.mem_cons_of_mem _ hc)

instance : IsTotal TimelineEvent (fun a b => a.position ≤ b.position) :=
  ⟨fun a b => Nat.le_total a.position b.position⟩

instance : IsTrans TimelineEvent (fun a b => a.position ≤ b.position) :=
  ⟨fun _ _ _ => Nat.le_trans⟩

/-- C4 amended: `extract_timeline` deduplicates by *exact date token* (first
occurrence wins) over the position-sorted event list; distinct overlapping
tokens (such as `"2024年3月"` and `"2024年"`) all remain.  Consequently every
successful output has pairwise-distinct date tokens and is ordered by
ascending character offset. -/
theorem C4_amended_dedup_by_exact_token (content : PyStr)
    (evs : List TimelineEvent) (h : extract_timeline content = .ok evs) :
    ((evs.map (fun e => e.date)).Nodup) ∧
      evs.Pairwise (fun a b => a.position ≤ b.position) := by
  rw [extract_timeline] at h
  rcases hm : (timelineMatches content).mapM (mkEvent content) with e | opts
  · rw [hm] at h
    simp [Bind.bind, Monad.toBind, Except.instMonad, Except.bind] at h
  · rw [hm] at h
    simp only [Bind.bind, Monad.toBind, Except.instMonad, Except.bind, pure,
      Except.pure, Except.ok.injEq] at h
    subst h
    constructor
    · exact (dedupByDate_nodup _ []).1
    · have hsorted : (eventsSort (opts.filterMap id)).Pairwise
          (fun a b => a.position ≤ b.position) :=
        List.sorted_insertionSort
          (fun a b : TimelineEvent => a.position ≤ b.position)
          (opts.filterMap id)
      exact hsorted.sublist (dedupByDate_sublist [] _)

/-- Witness for the amended C4 at the counterexample input. -/
theorem C4_amended_witness :
    (([⟨"2024年3月".data, "2024年3月政策启动".data, 0⟩,
       ⟨"2024年".data, "2024年3月政策启动".data, 0⟩]
        : List TimelineEvent).map (fun e => e.date)).Nodup ∧
      ([⟨"2024年3月".data, "2024年3月政策启动".data, 0⟩,
        ⟨"2024年".data, "2024年3月政策启动".data, 0⟩]
          : List TimelineEvent).Pairwise (fun a b => a.position ≤ b.position) :=
  C4_amended_dedup_by_exact_token "2024年3月政策启动".data _ (by decide)

/-- Every table in the output of the line loop came out of `_parse_table`. -/
theorem mem_extractTablesGo (u : PyStr) :
    ∀ (lines current : List PyStr) (t : ExtractedData),
      t ∈ extractTablesGo u lines current →
      ∃ ls, parse_table ls u = some t := by
  intro lines
  induction lines with
  | nil =>
    intro current t ht
    rw [extractTablesGo] at ht
    split_ifs at ht with h
    · simp at ht
    · exact ⟨current, by simpa using Option.mem_toList.mp ht⟩
  | cons l rest ih =>
    intro current t ht
    rw [extractTablesGo] at ht
    by_cases h : charIn '|' l = true
    · rw [if_pos h] at ht
      exact ih _ t ht
    · rw [if_neg h] at ht
      rcases List.mem_append.mp ht with h1 | h2
      · by_cases h3 : current = []
        · rw [if_pos h3] at h1
          simp at h1
        · rw [if_neg h3] at h1
          exact ⟨current, by simpa using Option.mem_toList.mp h1⟩
      · exact ih _ t h2

/-- `_parse_table` only ever assigns confidence 0.9 or 0.7. -/
theorem parse_table_confidence (ls : List PyStr) (u : PyStr)
    (t : ExtractedData) (h : parse_table ls u = some t) :
    t.confidence = dec 9 1 ∨ t.confidence = dec 7 1 := by
  cases ls with
  | nil => simp [parse_table] at h
  | cons l0 rest =>
    simp only [parse_table] at h
    split_ifs at h with h1 h2 h3
    · simp only [Option.some.injEq] at h
      subst h
      exact Or.inl rfl
    · simp only [Option.some.injEq] at h
      subst h
      exact Or.inr rfl

/-- Every key-metric hit carries confidence 0.85 (forward) or 0.8
(reverse). -/
theorem extract_key_metrics_confidence (content : PyStr) :
    ∀ (ms : List PyStr) (res : List MetricHit),
      extract_key_metrics content ms = .ok res →
      ∀ r ∈ res, r.confidence = dec 85 2 ∨ r.confidence = dec 8 1 := by
  intro ms
  induction ms with
  | nil =>
    intro res h r hr
    simp only [extract_key_metrics, Except.ok.injEq] at h
    subst h
    simp at hr
  | cons m rest ih =>
    intro res h r hr
    rw [extract_key_metrics] at h
    split_ifs at h with hlit
    · rcases hrec : extract_key_metrics content rest with e | tail
      · rw [hrec] at h
        simp [Bind.bind, Monad.toBind, Except.instMonad, Except.bind] at h
      · rw [hrec] at h
        simp only [Bind.bind, Monad.toBind, Except.instMonad, Except.bind,
          pure, Except.pure, Except.ok.injEq] at h
        subst h
        rcases List.mem_append.mp hr with h1 | h2
        · rcases List.mem_append.mp h1 with hf | hv
          · rcases hsf : searchFwdGo m 0 content with - | pt
            · rw [hsf] at hf; simp at hf
            · rw [hsf] at hf
              simp at hf
              subst hf
              exact Or.inl rfl
          · rcases hsr : searchRevGo m 0 content with - | pt
            · rw [hsr] at hv; simp at hv
            · rw [hsr] at hv
              simp at hv
              subst hv
              exact Or.inr rfl
        · exact ih tail hrec r h2

/-- C9: every record produced by `extract_tables`, `extract_statistics` and
(on its non-raising runs) `extract_key_metrics` carries a confidence in the
closed interval [0, 1]. -/
theorem C9_confidence_in_unit_interval (content url : PyStr)
    (ms : List PyStr) :
    (∀ t ∈ extract_tables content url,
      0 ≤ t.confidence ∧ t.confidence ≤ 1) ∧
    (∀ s ∈ extract_statistics content,
      0 ≤ s.confidence ∧ s.confidence ≤ 1) ∧
    (∀ res, extract_key_metrics content ms = .ok res →
      ∀ r ∈ res, 0 ≤ r.confidence ∧ r.confidence ≤ 1) := by
  refine ⟨?_, ?_, ?_⟩
  · intro t ht
    obtain ⟨ls, hls⟩ := mem_extractTablesGo url _ _ t ht
    rcases parse_table_confidence ls url t hls with h | h <;>
      rw [h] <;> exact ⟨by decide, by decide⟩
  · intro s hs
    rcases List.mem_append.mp hs with h | h
    · obtain ⟨m, -, rfl⟩ := List.mem_map.mp h
      have hc : (pctStatOf content m).confidence = dec 8 1 := rfl
      rw [hc]
      exact ⟨by decide, by decide⟩
    · obtain ⟨m, -, hm⟩ := List.mem_filterMap.mp h
      obtain ⟨v, g, -, -, hc, -, -, -⟩ := largeStatOf_shape content m s hm
      rw [hc]
      exact ⟨by decide, by decide⟩
  · intro res hres r hr
    rcases extract_key_metrics_confidence content ms res hres r hr with h | h <;>
      rw [h] <;> exact ⟨by decide, by decide⟩

/-- Witness for C9 at concrete inputs. -/
theorem C9_confidence_in_unit_interval_witness :
    (∀ t ∈ extract_tables "a|b\nc|d".data [],
      0 ≤ t.confidence ∧ t.confidence ≤ 1) ∧
    (∀ s ∈ extract_statistics "a|b\nc|d".data,
      0 ≤ s.confidence ∧ s.confidence ≤ 1) ∧
    (∀ res, extract_key_metrics "a|b\nc|d".data ["销量".data] = .ok res →
      ∀ r ∈ res, 0 ≤ r.confidence ∧ r.confidence ≤ 1) :=
  C9_confidence_in_unit_interval "a|b\nc|d".data [] ["销量".data]

/-- Characters of any line produced by `splitChar` occur in the split
string. -/
theorem mem_of_mem_splitChar (d : Char) :
    ∀ (s l : PyStr), l ∈ splitChar d s → ∀ c ∈ l, c ∈ s := by
  intro s
  induction s with
  | nil =>
    intro l hl c hc
    simp only [splitChar, List.mem_singleton] at hl
    subst hl
    simp at hc
  | cons x rest ih =>
    intro l hl c hc
    rw [splitChar] at hl
    by_cases hx : x = d
    · rw [if_pos hx] at hl
      rcases List.mem_cons.mp hl with rfl | h
      · simp at hc
      · exact List.mem_cons_of_mem _ (ih l h c hc)
    · rw [if_neg hx] at hl
      rcases hsp : splitChar d rest with - | ⟨s0, ss⟩
      · exact absurd hsp (splitChar_ne_nil d rest)
      · rw [hsp] at hl
        rcases List.mem_cons.mp hl with rfl | h
        · rcases List.mem_cons.mp hc with rfl | h2
          · exact List.mem_cons_self _ _
          · refine List.mem_cons_of_mem _ (ih s0 ?_ c h2)
            rw [hsp]
            exact List.mem_cons_self _ _
        · refine List.mem_cons_of_mem _ (ih l ?_ c hc)
          rw [hsp]
          exact List.mem_cons_of_mem _ h

/-- With no pipe character in any line and nothing accumulated, the table
loop produces nothing. -/
theorem extractTablesGo_nopipe (u : PyStr) :
    ∀ lines, (∀ l ∈ lines, charIn '|' l = false) →
      extractTablesGo u lines [] = [] := by
  intro lines
  induction lines with
  | nil => intro _; simp [extractTablesGo]
  | cons l rest ih =>
    intro h
    rw [extractTablesGo, if_neg (by simp [h l (List.mem_cons_self _ _)])]
    simp only [if_pos rfl, List.nil_append]
    exact ih (fun x hx => h x (List.mem_cons_of_mem _ hx))

/-- Leading pipe-free lines are skipped by the table loop. -/
theorem extractTablesGo_pre (u : PyStr) :
    ∀ pre rest, (∀ l ∈ pre, charIn '|' l = false) →
      extractTablesGo u (pre ++ rest) [] = extractTablesGo u rest [] := by
  intro pre
  induction pre with
  | nil => intro rest _; rfl
  | cons p ps ih =>
    intro rest h
    rw [List.cons_append, extractTablesGo,
      if_neg (by simp [h p (List.mem_cons_self _ _)])]
    simp only [if_pos rfl, List.nil_append]
    exact ih rest (fun x hx => h x (List.mem_cons_of_mem _ hx))

/-- A run of pipe-containing lines accumulates into `current`. -/
theorem extractTablesGo_block (u : PyStr) :
    ∀ block post cur, (∀ l ∈ block, charIn '|' l = true) →
      extractTablesGo u (block ++ post) cur =
        extractTablesGo u post (cur ++ block) := by
  intro block
  induction block with
  | nil => intro post cur _; simp
  | cons b bs ih =>
    intro post cur h
    rw [List.cons_append, extractTablesGo,
      if_pos (h b (List.mem_cons_self _ _)),
      ih post (cur ++ [b]) (fun x hx => h x (List.mem_cons_of_mem _ hx))]
    congr 1
    simp

/-- With only pipe-free lines left, a non-empty accumulated block is flushed
through `_parse_table` and nothing else is produced. -/
theorem extractTablesGo_flush (u : PyStr) :
    ∀ post cur, (∀ l ∈ post, charIn '|' l = false) → cur ≠ [] →
      extractTablesGo u post cur = (parse_table cur u).toList := by
  intro post cur hpost hcur
  cases post with
  | nil => rw [extractTablesGo, if_neg hcur]
  | cons p ps =>
    rw [extractTablesGo, if_neg (by simp [hpost p (List.mem_cons_self _ _)]),
      if_neg hcur,
      extractTablesGo_nopipe u ps (fun x hx => hpost x (List.mem_cons_of_mem _ hx)),
      List.append_nil]

/-- `filterMap` by an everywhere-`some` function preserves length. -/
theorem filterMap_all_some {α β : Type} (f : α → Option β) :
    ∀ l : List α, (∀ x ∈ l, (f x).isSome) →
      (l.filterMap f).length = l.length := by
  intro l
  induction l with
  | nil => intro _; rfl
  | cons x xs ih =>
    intro h
    obtain ⟨y, hy⟩ := Option.isSome_iff_exists.mp (h x (List.mem_cons_self _ _))
    rw [List.filterMap_cons, hy, List.length_cons,
      ih (fun z hz => h z (List.mem_cons_of_mem _ hz))]
    rfl

/-- `_parse_table` on a block of lines with a uniform positive cell count:
one table, one row per line after the header. -/
theorem parse_table_uniform (u b0 : PyStr) (btail : List PyStr) (c : ℕ)
    (hc0 : (tableCells b0).length = c)
    (hct : ∀ l ∈ btail, (tableCells l).length = c)
    (hc1 : 1 ≤ c) (hne : btail ≠ []) :
    ∃ t, parse_table (b0 :: btail) u = some t ∧
      t.structured_data.length = btail.length ∧
      t.row_count = btail.length ∧
      t.confidence = (if 1 < btail.length then dec 9 1 else dec 7 1) := by
  have hlen2 : ¬ (b0 :: btail).length < 2 := by
    cases btail with
    | nil => exact absurd rfl hne
    | cons => simp
  have hall : ∀ l ∈ btail, (rowOfLine (tableCells b0) l).isSome := by
    intro l hl
    have h1 : (tableCells l).length = c := hct l hl
    have h2 : tableCells l ≠ [] := by
      intro he
      rw [he] at h1
      simp at h1
      omega
    rw [rowOfLine]
    rw [if_pos ⟨h2, by rw [hc0, h1]⟩]
    rfl
  have hrowlen : (btail.filterMap (rowOfLine (tableCells b0))).length
      = btail.length :=
    filterMap_all_some _ btail hall
  have hrne : btail.filterMap (rowOfLine (tableCells b0)) ≠ [] := by
    intro hr
    rw [hr] at hrowlen
    cases btail with
    | nil => exact hne rfl
    | cons => simp at hrowlen
  have heq : parse_table (b0 :: btail) u = some
      { content_type := "table".data
        raw_content := pyJoin ['\n'] (b0 :: btail)
        structured_data := btail.filterMap (rowOfLine (tableCells b0))
        confidence := if 1 < (btail.filterMap (rowOfLine (tableCells b0))).length
          then dec 9 1 else dec 7 1
        source_url := u
        headers := tableCells b0
        row_count := (btail.filterMap (rowOfLine (tableCells b0))).length } := by
    simp only [parse_table, if_neg hlen2, if_neg hrne]
  exact ⟨_, heq, hrowlen, hrowlen, by rw [hrowlen]⟩

/-- C5: a text whose lines are pipe-free lines, then a contiguous block of
`N ≥ 2` pipe-containing lines with a uniform positive count of non-empty
stripped cells, then pipe-free lines, yields exactly one table record with
`N - 1` row mappings and confidence 0.9 when `N - 1 > 1`, else 0.7; and a
text containing no pipe character yields no table at all. -/
theorem C5_single_block_table :
    (∀ (content url : PyStr) (pre block post : List PyStr) (c : ℕ),
      splitChar '\n' content = pre ++ block ++ post →
      (∀ l ∈ pre, charIn '|' l = false) →
      (∀ l ∈ post, charIn '|' l = false) →
      (∀ l ∈ block, charIn '|' l = true) →
      2 ≤ block.length →
      (∀ l ∈ block, (tableCells l).length = c) →
      1 ≤ c →
      ∃ t, extract_tables content url = [t] ∧
        t.structured_data.length = block.length - 1 ∧
        t.row_count = block.length - 1 ∧
        t.confidence = (if 1 < block.length - 1 then 0.9 else 0.7)) ∧
    (∀ content url : PyStr, (∀ ch ∈ content, ch ≠ '|') →
      extract_tables content url = []) := by
  constructor
  · intro content url pre block post c hsplit hpre hpost hblock hN hc hc1
    obtain ⟨b0, btail, rfl⟩ : ∃ b0 btail, block = b0 :: btail := by
      cases block with
      | nil => simp at hN
      | cons b bs => exact ⟨b, bs, rfl⟩
    have hbt : btail ≠ [] := by
      intro h
      rw [h] at hN
      simp at hN
    obtain ⟨t, hpt, hlen, hcount, hconf⟩ :=
      parse_table_uniform url b0 btail c
        (hc b0 (List.mem_cons_self _ _))
        (fun l hl => hc l (List.mem_cons_of_mem _ hl)) hc1 hbt
    refine ⟨t, ?_, by simpa using hlen, by simpa using hcount, ?_⟩
    · rw [extract_tables, hsplit, List.append_assoc,
        extractTablesGo_pre url pre _ hpre,
        extractTablesGo_block url _ post [] hblock,
        List.nil_append,
        extractTablesGo_flush url post _ hpost (by simp),
        hpt]
      rfl
    · rw [hconf]
      have hbl : (b0 :: btail).length - 1 = btail.length := by simp
      rw [hbl]
      split_ifs with h1
      · exact dec_eq_09
      · exact dec_eq_07
  · intro content url h
    rw [extract_tables]
    refine extractTablesGo_nopipe url _ (fun l hl => ?_)
    have h2 : '|' ∉ l :=
      fun hmem => (h '|' (mem_of_mem_splitChar '\n' content l hl '|' hmem)) rfl
    simpa [charIn] using h2

/-- Witness for C5: the three-line table `"a|b\nc|d\ne|f"` yields one table
with two rows and confidence 0.9, and `"hello"` yields nothing. -/
theorem C5_single_block_table_witness :
    (∃ t, extract_tables "a|b\nc|d\ne|f".data [] = [t] ∧
      t.structured_data.length = 2 ∧ t.row_count = 2 ∧
      t.confidence = (if 1 < 2 then (0.9 : ℚ) else 0.7)) ∧
    extract_tables "hello".data [] = [] := by
  constructor
  · have := C5_single_block_table.1 "a|b\nc|d\ne|f".data []
      [] ["a|b".data, "c|d".data, "e|f".data] [] 2
      (by decide) (by decide) (by decide) (by decide) (by decide)
      (by decide) (by decide)
    simpa using this
  · exact C5_single_block_table.2 "hello".data [] (by decide)

/-- `splitChar` of a separator-free string is that single line. -/
theorem splitChar_eq_single (d : Char) :
    ∀ s : PyStr, (∀ c ∈ s, c ≠ d) → splitChar d s = [s] := by
  intro s
  induction s with
  | nil => intro _; rfl
  | cons x xs ih =>
    intro h
    rw [splitChar, if_neg (h x (List.mem_cons_self _ _))]
    simp only [ih (fun c hc => h c (List.mem_cons_of_mem _ hc))]

/-- `splitChar` peels one separator-free line off the front. -/
theorem splitChar_append (d : Char) :
    ∀ (a b : PyStr), (∀ c ∈ a, c ≠ d) →
      splitChar d (a ++ d :: b) = a :: splitChar d b := by
  intro a
  induction a with
  | nil =>
    intro b _
    rw [List.nil_append, splitChar, if_pos rfl]
  | cons x xs ih =>
    intro b h
    rw [List.cons_append, splitChar, if_neg (h x (List.mem_cons_self _ _))]
    simp only [ih b (fun c hc => h c (List.mem_cons_of_mem _ hc))]

/-- `splitChar` is a left inverse of joining separator-free lines. -/
theorem splitChar_pyJoin (d : Char) :
    ∀ parts : List PyStr, parts ≠ [] →
      (∀ p ∈ parts, ∀ c ∈ p, c ≠ d) →
      splitChar d (pyJoin [d] parts) = parts := by
  intro parts
  induction parts with
  | nil => intro h _; exact absurd rfl h
  | cons p ps ih =>
    intro _ h
    cases ps with
    | nil => exact splitChar_eq_single d p (h p (List.mem_cons_self _ _))
    | cons q qs =>
      rw [pyJoin, List.append_assoc]
      have hd : ([d] : PyStr) ++ pyJoin [d] (q :: qs)
          = d :: pyJoin [d] (q :: qs) := rfl
      rw [hd, splitChar_append d p _ (h p (List.mem_cons_self _ _)),
        ih (by simp) (fun x hx => h x (List.mem_cons_of_mem _ hx))]

/-- Characters of a join come from the separator or one of the parts. -/
theorem mem_pyJoin (sep : PyStr) :
    ∀ (parts : List PyStr) (c : Char), c ∈ pyJoin sep parts →
      c ∈ sep ∨ ∃ p ∈ parts, c ∈ p := by
  intro parts
  induction parts with
  | nil => intro c hc; simp [pyJoin] at hc
  | cons p ps ih =>
    intro c hc
    cases ps with
    | nil => exact Or.inr ⟨p, List.mem_cons_self _ _, by simpa [pyJoin] using hc⟩
    | cons q qs =>
      rw [pyJoin] at hc
      rcases List.mem_append.mp hc with h1 | h2
      · rcases List.mem_append.mp h1 with h3 | h4
        · exact Or.inr ⟨p, List.mem_cons_self _ _, h3⟩
        · exact Or.inl h4
      · rcases ih c h2 with h3 | ⟨x, hx, hcx⟩
        · exact Or.inl h3
        · exact Or.inr ⟨x, List.mem_cons_of_mem _ hx, hcx⟩

/-- A rendered table row contains no newline when its cells do not. -/
theorem mkTableRow_no_newline (cells : List PyStr)
    (h : ∀ p ∈ cells, ∀ c ∈ p, c ≠ '\n') :
    ∀ c ∈ mkTableRow cells, c ≠ '\n' := by
  intro c hc
  rw [mkTableRow] at hc
  rcases List.mem_append.mp hc with h1 | h2
  · rcases List.mem_append.mp h1 with h3 | h4
    · intro he; subst he; simp at h3
    · rcases mem_pyJoin _ _ c h4 with h5 | ⟨p, hp, hcp⟩
      · intro he; subst he; simp at h5
      · exact h p hp c hcp
  · intro he; subst he; simp at h2

/-- A dict lookup with newline-free values and default is newline-free. -/
theorem dictGet_no_newline (item : Row) (k : PyStr)
    (h : ∀ kv ∈ item, ∀ c ∈ kv.2, c ≠ '\n') :
    ∀ c ∈ dictGet item k [], c ≠ '\n' := by
  induction item with
  | nil => intro c hc; simp [dictGet] at hc
  | cons kv rest ih =>
    intro c hc
    rw [dictGet] at hc
    split_ifs at hc with hk
    · exact h kv (List.mem_cons_self _ _) c hc
    · exact ih (fun kv2 h2 => h kv2 (List.mem_cons_of_mem _ h2)) c hc

/-- C8: rendering the empty data list gives the empty string; rendering a
non-empty list splits on newlines into exactly the header row, the dash
separator row (one `---` group per column), and one row per record in input
order, with missing keys rendered as the empty string; the default column
order is the first record's key order. -/
theorem C8_markdown_rendering :
    (∀ columns, generate_data_table [] columns = []) ∧
    (∀ (r0 : Row) (rest : List Row) (columns : Option (List PyStr))
        (cols : List PyStr),
      cols = (match columns with
        | some cs => cs
        | none => r0.map Prod.fst) →
      (∀ col ∈ cols, ∀ c ∈ col, c ≠ '\n') →
      (∀ item ∈ r0 :: rest, ∀ kv ∈ item, ∀ c ∈ kv.2, c ≠ '\n') →
      splitChar '\n' (generate_data_table (r0 :: rest) columns) =
        mkTableRow cols
          :: mkTableRow (cols.map (fun _ => "---".data))
          :: (r0 :: rest).map (fun item =>
            mkTableRow (cols.map (fun col => dictGet item col [])))) := by
  constructor
  · intro columns; rfl
  · intro r0 rest columns cols hcols hnlc hnlv
    have hgen : generate_data_table (r0 :: rest) columns =
        (mkTableRow cols ++ ['\n']) ++
        ((mkTableRow (cols.map (fun _ => "---".data)) ++ ['\n']) ++
          pyJoin ['\n'] ((r0 :: rest).map (fun item =>
            mkTableRow (cols.map (fun col => dictGet item col []))))) := by
      cases columns with
      | some cs =>
        have h : cols = cs := hcols
        subst h
        simp [generate_data_table, List.append_assoc]
      | none =>
        have h : cols = r0.map Prod.fst := hcols
        subst h
        simp [generate_data_table, List.append_assoc]
    rw [hgen]
    have hassoc1 : (mkTableRow cols ++ ['\n']) ++
        ((mkTableRow (cols.map (fun _ => "---".data)) ++ ['\n']) ++
          pyJoin ['\n'] ((r0 :: rest).map (fun item =>
            mkTableRow (cols.map (fun col => dictGet item col []))))) =
        mkTableRow cols ++ '\n' ::
          (mkTableRow (cols.map (fun _ => "---".data)) ++ '\n' ::
            pyJoin ['\n'] ((r0 :: rest).map (fun item =>
              mkTableRow (cols.map (fun col => dictGet item col []))))) := by
      simp
    rw [hassoc1,
      splitChar_append '\n' _ _ (mkTableRow_no_newline cols hnlc),
      splitChar_append '\n' _ _ (mkTableRow_no_newline _ (by
        intro p hp c hc
        obtain ⟨col, -, rfl⟩ := List.mem_map.mp hp
        intro he; subst he; simp at hc)),
      splitChar_pyJoin '\n' _ (by simp) (by
        intro p hp c hc
        obtain ⟨item, hitem, rfl⟩ := List.mem_map.mp hp
        refine mkTableRow_no_newline _ ?_ c hc
        intro cell hcell c2 hc2
        obtain ⟨col, -, rfl⟩ := List.mem_map.mp hcell
        exact dictGet_no_newline item col
          (hnlv item hitem) c2 hc2)]

/-- Witness for C8 at a concrete two-record table with a missing key. -/
theorem C8_markdown_rendering_witness :
    generate_data_table [] (some ["a".data]) = [] ∧
    splitChar '\n' (generate_data_table
        [[("a".data, "1".data), ("b".data, "2".data)], [("a".data, "3".data)]]
        none) =
      mkTableRow ["a".data, "b".data]
        :: mkTableRow ["---".data, "---".data]
        :: [mkTableRow ["1".data, "2".data], mkTableRow ["3".data, []]] := by
  constructor
  · exact C8_markdown_rendering.1 (some ["a".data])
  · have := C8_markdown_rendering.2
      [("a".data, "1".data), ("b".data, "2".data)] [[("a".data, "3".data)]]
      none ["a".data, "b".data] (by decide) (by decide) (by decide)
    simpa using this

/-- One step of the lazy gap scan on a non-digit head. -/
theorem lazyGapNum_cons_nondigit (gmax g : ℕ) (c : Char) (rest : PyStr)
    (hc : c.isDigit = false) :
    lazyGapNum gmax g (c :: rest) =
      if g < gmax then
        (if c = '\n' ∨ c = '。' then none else lazyGapNum gmax (g + 1) rest)
      else none := by
  conv_lhs => rw [lazyGapNum]
  have hnum : numTokAt (c :: rest) = none := by
    rw [numTokAt, List.takeWhile_cons_of_neg (by simp [hc])]
    rfl
  rw [hnum]

/-- Scanning the lazy gap across digit-free characters towards the literal
digits `120` (followed by `万`) either fails (gap bound exceeded or a
boundary character in between) or yields exactly the token `"120"`. -/
theorem lazyGapNum_digitfree_120 (post : PyStr) :
    ∀ (mid : PyStr) (g : ℕ), (∀ c ∈ mid, c.isDigit = false) →
      lazyGapNum 50 g (mid ++ '1' :: '2' :: '0' :: '万' :: post) = none ∨
      lazyGapNum 50 g (mid ++ '1' :: '2' :: '0' :: '万' :: post)
        = some "120".data := by
  intro mid
  induction mid with
  | nil => intro g _; exact Or.inr rfl
  | cons c mid' ih =>
    intro g h
    rw [List.cons_append,
      lazyGapNum_cons_nondigit 50 g c _ (h c (List.mem_cons_self _ _))]
    by_cases hg : g < 50
    · rw [if_pos hg]
      by_cases hb : c = '\n' ∨ c = '。'
      · rw [if_pos hb]
        exact Or.inl rfl
      · rw [if_neg hb]
        exact ih (g + 1) (fun x hx => h x (List.mem_cons_of_mem _ hx))
    · rw [if_neg hg]
      exact Or.inl rfl

/-- One step of the forward metric search. -/
theorem searchFwdGo_cons (metric : PyStr) (pos : ℕ) (c : Char) (rest : PyStr) :
    searchFwdGo metric pos (c :: rest) =
      match (if pyStarts metric (c :: rest) then
          lazyGapNum 50 0 ((c :: rest).drop metric.length) else none) with
      | some tok => some (pos, tok)
      | none => searchFwdGo metric (pos + 1) rest := rfl

/-- The forward search for the literal metric `"销量"` on any text of the
form `pre ++ "销量达到120万辆" ++ post` with a digit-free prefix succeeds,
and the extracted value is exactly the token `"120"` (the numeric token
following an occurrence of the metric name). -/
theorem searchFwd_digitfree_pre (post : PyStr) :
    ∀ (pre2 : PyStr) (pos : ℕ), (∀ c ∈ pre2, c.isDigit = false) →
      ∃ p, searchFwdGo "销量".data pos
        (pre2 ++ '销' :: '量' :: '达' :: '到' :: '1' :: '2' :: '0' :: '万'
          :: '辆' :: post) = some (p, "120".data) := by
  intro pre2
  induction pre2 with
  | nil => intro pos _; exact ⟨pos, rfl⟩
  | cons c pre2' ih =>
    intro pos h
    have hstep := searchFwdGo_cons "销量".data pos c
      (pre2' ++ '销' :: '量' :: '达' :: '到' :: '1' :: '2' :: '0' :: '万'
        :: '辆' :: post)
    rw [List.cons_append, hstep]
    by_cases hm : pyStarts "销量".data
        (c :: (pre2' ++ '销' :: '量' :: '达' :: '到' :: '1' :: '2' :: '0'
          :: '万' :: '辆' :: post)) = true
    · rw [if_pos hm]
      cases pre2' with
      | nil =>
        exfalso
        simp [pyStarts] at hm
      | cons q pre2'' =>
        have hdrop : List.drop ("销量".data).length
            (c :: (q :: pre2'' ++ '销' :: '量' :: '达' :: '到' :: '1' :: '2'
              :: '0' :: '万' :: '辆' :: post))
            = (pre2'' ++ ['销', '量', '达', '到'])
              ++ '1' :: '2' :: '0' :: '万' :: ('辆' :: post) := by
          show List.drop 2 _ = _
          simp
        rw [hdrop]
        have hmid : ∀ x ∈ pre2'' ++ ['销', '量', '达', '到'],
            x.isDigit = false := by
          intro x hx
          rcases List.mem_append.mp hx with h1 | h2
          · exact h x (List.mem_cons_of_mem _ (List.mem_cons_of_mem _ h1))
          · simp only [List.mem_cons, List.not_mem_nil, or_false] at h2
            rcases h2 with rfl | rfl | rfl | rfl <;> rfl
        rcases lazyGapNum_digitfree_120 ('辆' :: post)
            (pre2'' ++ ['销', '量', '达', '到']) 0 hmid with hg | hg
        · rw [hg]
          exact ih (pos + 1) (fun x hx => h x (List.mem_cons_of_mem _ hx))
        · rw [hg]
          exact ⟨pos, rfl⟩
    · rw [if_neg hm]
      exact ih (pos + 1) (fun x hx => h x (List.mem_cons_of_mem _ hx))

/-- C7: for the metric `"销量"`, any text containing `"销量达到120万辆"`
(with a digit-free prefix before it) produces a forward-direction record
(the head of the result list, ahead of any reverse-direction record) with
confidence 0.85 whose value text is the numeric token `"120"` adjacent to
the metric name. -/
theorem C7_forward_metric_match (pre post : PyStr)
    (hpre : ∀ c ∈ pre, c.isDigit = false) :
    ∃ res p, extract_key_metrics
        (pre ++ "销量达到120万辆".data ++ post) ["销量".data] = .ok res ∧
      res.head? = some ⟨"销量".data, "120".data, p, 0.85⟩ := by
  obtain ⟨p, hfwd⟩ := searchFwd_digitfree_pre post pre 0 hpre
  have htext : (pre ++ "销量达到120万辆".data ++ post : PyStr)
      = pre ++ '销' :: '量' :: '达' :: '到' :: '1' :: '2' :: '0' :: '万'
        :: '辆' :: post := by
    rw [show ("销量达到120万辆".data : PyStr)
      = ['销', '量', '达', '到', '1', '2', '0', '万', '辆'] from rfl,
      List.append_assoc]
    simp
  have hres : extract_key_metrics
      (pre ++ "销量达到120万辆".data ++ post) ["销量".data]
      = .ok ((⟨"销量".data, "120".data, p, dec 85 2⟩ : MetricHit) ::
          ((searchRevGo "销量".data 0 (pre ++ '销' :: '量' :: '达' :: '到'
              :: '1' :: '2' :: '0' :: '万' :: '辆' :: post)).map
            (fun pt => MetricHit.mk "销量".data pt.2 pt.1 (dec 8 1))).toList) := by
    rw [htext, extract_key_metrics,
      if_pos (show (("销量".data).all (fun c => c ∉ reMetachars)) = true
        from rfl)]
    simp [Bind.bind, Monad.toBind, Except.instMonad, Except.bind, pure,
      Except.pure, extract_key_metrics, hfwd]
  refine ⟨_, p, hres, ?_⟩
  rw [← dec_eq_085]
  rfl

/-- Witness for C7 at the bare fixture text. -/
theorem C7_forward_metric_match_witness :
    ∃ res p, extract_key_metrics
        ([] ++ "销量达到120万辆".data ++ []) ["销量".data] = .ok res ∧
      res.head? = some ⟨"销量".data, "120".data, p, 0.85⟩ :=
  C7_forward_metric_match [] [] (by simp)
